import Mathlib

set_option maxHeartbeats 1000000

/-!
Shallow embedding of the merge3 three-way merge algorithm
(src/merge3/__init__.py) and verification of its specification claims.

Sequences are `List α`; the pluggable sequence matcher is a function from
two sequences to a list of matching blocks, as `difflib.SequenceMatcher
(...).get_matching_blocks()` returns.  Python generators are modelled as
the list of the elements they yield, paired with an optional error that
was raised after those elements were produced.
-/

/-- A matching block `(i, j, n)` as returned by `get_matching_blocks`:
the first sequence's span `[i, i+n)` equals the second's `[j, j+n)`. -/
structure MBlock where
  i : Nat
  j : Nat
  n : Nat
deriving DecidableEq, Repr

/-- A sequence matcher: from two sequences, the list of matching blocks
(the model of `self.sequence_matcher(None, x, y).get_matching_blocks()`). -/
def Matcher (α : Type) : Type := List α → List α → List MBlock

/-- `intersect(ra, rb)` from the source: the overlap of two half-open
ranges, or `None` when they do not properly overlap. -/
def intersect (ra rb : Nat × Nat) : Option (Nat × Nat) :=
  let sa := max ra.1 rb.1
  let sb := min ra.2 rb.2
  if sa < sb then some (sa, sb) else none

/-- `compare_range(a, astart, aend, b, bstart, bend)` from the source:
`a[astart:aend] == b[bstart:bend]` without slicing.  The two lengths are
compared as (possibly negative) integers, and the elements positionally;
element lookup is modelled with optional indexing. -/
def compareRange {α : Type} [DecidableEq α] (a : List α) (astart aend : Nat)
    (b : List α) (bstart bend : Nat) : Bool :=
  if (aend : Int) - (astart : Int) ≠ (bend : Int) - (bstart : Int) then false
  else (List.range (aend - astart)).all fun k =>
    decide (a[astart + k]? = b[bstart + k]?)

/-- A sync region `(base1, base2, a1, a2, b1, b2)`: a span matched
identically by `base`, `a` and `b`. -/
structure SyncRegion where
  base1 : Nat
  base2 : Nat
  a1 : Nat
  a2 : Nat
  b1 : Nat
  b2 : Nat
deriving DecidableEq, Repr

/-- One step of the `while ia < len_a and ib < len_b` loop of
`find_sync_regions` for a fixed current base-vs-a match `A`: intersect it
with the current base-vs-b match, emit the overlap translated into
`a`/`b` offsets, and advance whichever match ends first in base
coordinates (tie: advance `b`); `recA` continues with the next `a`-side
match. -/
def syncLoopInner (recA : List MBlock → List SyncRegion) (A : MBlock) :
    List MBlock → List SyncRegion
  | [] => []
  | B :: bm =>
    let rest :=
      if A.i + A.n < B.i + B.n then recA (B :: bm)
      else syncLoopInner recA A bm
    match intersect (A.i, A.i + A.n) (B.i, B.i + B.n) with
    | some (intbase, intend) =>
      let intlen := intend - intbase
      let asub := A.j + (intbase - A.i)
      let bsub := B.j + (intbase - B.i)
      ⟨intbase, intend, asub, asub + intlen, bsub, bsub + intlen⟩ :: rest
    | none => rest

/-- The loop over the two block lists, advancing one cursor at a time:
the step that drops the head of the `b`-side list is `syncLoopInner`, the
step that drops the head of the `a`-side list recurses here. -/
def syncLoop : List MBlock → List MBlock → List SyncRegion
  | [], _ => []
  | A :: am, bm => syncLoopInner (syncLoop am) A bm

/-- `find_sync_regions`: the sync loop over the two matchings, followed by
the zero-length sentinel sync region at the triple end of sequence. -/
def findSyncRegions {α : Type} (base a b : List α) (m : Matcher α) :
    List SyncRegion :=
  syncLoop (m base a) (m base b) ++
    [⟨base.length, base.length, a.length, a.length, b.length, b.length⟩]

/-- A merge region, the tagged tuples yielded by `merge_regions` and
`reprocess_merge_regions`.  `conflict` has base range `none` exactly for
the residual conflicts synthesized by reprocessing. -/
inductive Region where
  /-- `("unchanged", start, end)`: content taken from `base`. -/
  | unchanged (s e : Nat)
  /-- `("same", astart, aend)`: both sides changed identically. -/
  | same (s e : Nat)
  /-- `("a", start, end)`: non-clashing change from `a`. -/
  | sideA (s e : Nat)
  /-- `("b", start, end)`: non-clashing change from `b`. -/
  | sideB (s e : Nat)
  /-- `("conflict", zstart, zend, astart, aend, bstart, bend)`. -/
  | conflict (zr : Option (Nat × Nat)) (ia am ib bm : Nat)
deriving DecidableEq, Repr

/-- The errors the modelled operations can raise, in place of Python
exceptions. -/
inductive MErr where
  /-- `CantReprocessAndShowBase` raised at the top of `merge_lines`. -/
  | cantReprocessAndShowBase
  /-- `AssertionError("can't handle a=b=base but unmatched")`. -/
  | assertTriple
  /-- `NameError` in `_refine_cherrypick_conflict` when the match list is
  empty and the trailing residual branch reads the loop variables. -/
  | nameError
  /-- The failure of rendering a reprocessed (base-less) conflict together
  with a base marker (`assert iz is not None` / `range(None, None)`). -/
  | noneBaseRender
deriving DecidableEq, Repr

/-- Python list slicing `xs[s:e]` (for `0 ≤ s ≤ e`, clamped at the end). -/
def pySlice {α : Type} (xs : List α) (s e : Nat) : List α :=
  (xs.drop s).take (e - s)

/-- The `for base_idx, b_idx, match_len in matching blocks` loop of
`_refine_cherrypick_conflict`: emit a conflict for every gap in `b`
between consecutive base-vs-b matching blocks; the first conflict gets the whole
`a` range, later ones the empty range at `aend`.  Returns the emitted
regions with the final `last_base_idx`, `last_b_idx` and `yielded_a`. -/
def refineLoop (zstart astart aend bstart : Nat) :
    Nat → Nat → Bool → List MBlock → List Region × Nat × Nat × Bool
  | lastBase, lastB, ya, [] => ([], lastBase, lastB, ya)
  | lastBase, lastB, ya, blk :: rest =>
    let emit : List Region :=
      if (blk.j : Int) - (lastB : Int) = 0 then []
      else if ya then
        [.conflict (some (zstart + lastBase, zstart + blk.i)) aend aend
          (bstart + lastB) (bstart + blk.j)]
      else
        [.conflict (some (zstart + lastBase, zstart + blk.i)) astart aend
          (bstart + lastB) (bstart + blk.j)]
    let ya' := if (blk.j : Int) - (lastB : Int) = 0 then ya else true
    let r := refineLoop zstart astart aend bstart
      (blk.i + blk.n) (blk.j + blk.n) ya' rest
    (emit ++ r.1, r.2)

/-- `_refine_cherrypick_conflict(zstart, zend, astart, aend, bstart, bend)`:
re-diff `base[zstart:zend]` against `b[bstart:bend]` and emit a conflict
per non-matching gap; a trailing residual if the spans are not consumed
(reading the loop variables, a `NameError` when there was no block at
all); and the full-range fallback conflict when nothing was yielded. -/
def refineCherrypick {α : Type} (base b : List α) (m : Matcher α)
    (zstart zend astart aend bstart bend : Nat) : List Region × Option MErr :=
  let mblocks := m (pySlice base zstart zend) (pySlice b bstart bend)
  let r := refineLoop zstart astart aend bstart 0 0 false mblocks
  let rs := r.1
  let lastBase := r.2.1
  let lastB := r.2.2.1
  let ya := r.2.2.2
  if (lastBase : Int) ≠ (zend : Int) - (zstart : Int) ∨
      (lastB : Int) ≠ (bend : Int) - (bstart : Int) then
    match mblocks.getLast? with
    | none => (rs, some .nameError)
    | some blk =>
      let extra :=
        if ya then
          Region.conflict (some (zstart + lastBase, zstart + blk.i)) aend aend
            (bstart + lastB) (bstart + blk.j)
        else
          Region.conflict (some (zstart + lastBase, zstart + blk.i)) astart aend
            (bstart + lastB) (bstart + blk.j)
      (rs ++ [extra], none)
  else if !ya then
    (rs ++ [Region.conflict (some (zstart, zend)) astart aend bstart bend], none)
  else (rs, none)

/-- The `if len_a or len_b` gap-classification block of one iteration of
the `merge_regions` loop: the regions yielded for the gap before the sync
region `sync`, from cursors `(iz, ia, ib)`, and the error (the
`a=b=base but unmatched` assertion, or one raised inside cherry-pick
refinement) if one is raised there. -/
def gapOutput {α : Type} [DecidableEq α] (base a b : List α)
    (cherrypick : Bool) (m : Matcher α) (iz ia ib : Nat) (sync : SyncRegion) :
    List Region × Option MErr :=
  if (sync.a1 : Int) - (ia : Int) ≠ 0 ∨ (sync.b1 : Int) - (ib : Int) ≠ 0 then
    if compareRange a ia sync.a1 b ib sync.b1 then ([.same ia sync.a1], none)
    else
      let equalA := compareRange a ia sync.a1 base iz sync.base1
      let equalB := compareRange b ib sync.b1 base iz sync.base1
      if equalA && !equalB then ([.sideB ib sync.b1], none)
      else if equalB && !equalA then ([.sideA ia sync.a1], none)
      else if !equalA && !equalB then
        if cherrypick then
          refineCherrypick base b m iz sync.base1 ia sync.a1 ib sync.b1
        else ([.conflict (some (iz, sync.base1)) ia sync.a1 ib sync.b1], none)
      else ([], some .assertTriple)
  else ([], none)

/-- The `for ... in self.find_sync_regions()` loop of `merge_regions`,
with the cursors `iz`, `ia`, `ib` made explicit.  The gap block is
`gapOutput`; the `ia = amatch; ib = bmatch` cursor updates happen only
when the gap block ran (`if len_a or len_b`), `iz = zmatch` always, and a
non-empty sync region is emitted as `unchanged` and moves all three
cursors to its ends.  Returns the yielded regions and the error raised
afterwards, if any. -/
def mergeLoop {α : Type} [DecidableEq α] (base a b : List α)
    (cherrypick : Bool) (m : Matcher α) :
    Nat → Nat → Nat → List SyncRegion → List Region × Option MErr
  | _, _, _, [] => ([], none)
  | iz, ia, ib, sync :: rest =>
    let gap := gapOutput base a b cherrypick m iz ia ib sync
    let ia' :=
      if (sync.a1 : Int) - (ia : Int) ≠ 0 ∨ (sync.b1 : Int) - (ib : Int) ≠ 0
      then sync.a1 else ia
    let ib' :=
      if (sync.a1 : Int) - (ia : Int) ≠ 0 ∨ (sync.b1 : Int) - (ib : Int) ≠ 0
      then sync.b1 else ib
    match gap.2 with
    | some e => (gap.1, some e)
    | none =>
      if sync.base1 < sync.base2 then
        let r := mergeLoop base a b cherrypick m sync.base2 sync.a2 sync.b2 rest
        (gap.1 ++ Region.unchanged sync.base1 sync.base2 :: r.1, r.2)
      else
        let r := mergeLoop base a b cherrypick m sync.base1 ia' ib' rest
        (gap.1 ++ r.1, r.2)

/-- `merge_regions()`: classify the gaps between the sync regions. -/
def mergeRegions {α : Type} [DecidableEq α] (base a b : List α)
    (cherrypick : Bool) (m : Matcher α) : List Region × Option MErr :=
  mergeLoop base a b cherrypick m 0 0 0 (findSyncRegions base a b m)

/-- `Merge3.mismatch_region`: the residual conflict between reprocessing
mblocks, or `None` when there is nothing on either side. -/
def mismatchRegion (nextA regionIa nextB regionIb : Nat) : Option Region :=
  if nextA < regionIa ∨ nextB < regionIb then
    some (.conflict none nextA regionIa nextB regionIb)
  else none

/-- The `for region_ia, region_ib, region_len in matches[:-1]` loop of
`reprocess_merge_regions`, for one conflict: residual then matched-same,
repeatedly, and the final residual after the last (non-sentinel) match. -/
def reprocessConflictLoop (ia ib amatch bmatch : Nat) :
    Nat → Nat → List MBlock → List Region
  | nextA, nextB, [] => (mismatchRegion nextA amatch nextB bmatch).toList
  | nextA, nextB, blk :: rest =>
    let regionIa := blk.i + ia
    let regionIb := blk.j + ib
    (mismatchRegion nextA regionIa nextB regionIb).toList ++
      Region.same regionIa (blk.n + regionIa) ::
        reprocessConflictLoop ia ib amatch bmatch
          (regionIa + blk.n) (regionIb + blk.n) rest

/-- `reprocess_merge_regions`: pass non-conflicts through; re-diff each
conflict's `a` range against its `b` range and keep only the disagreeing
residuals (with `none` base range) between the matched spans. -/
def reprocessRegions {α : Type} (a b : List α) (m : Matcher α) :
    List Region → List Region
  | [] => []
  | .conflict _ ia amatch ib bmatch :: rest =>
    let mblocks := m (pySlice a ia amatch) (pySlice b ib bmatch)
    reprocessConflictLoop ia ib amatch bmatch ia ib mblocks.dropLast ++
      reprocessRegions a b m rest
  | r :: rest => r :: reprocessRegions a b m rest

/-- A text line, modelled as its list of characters (so that the model
stays executable by the kernel; Python `str.__add__` is list append and
`str.endswith` a suffix test). -/
abbrev Line : Type := List Char

/-- Python `x.endswith(suf)` on lines. -/
def endsWithL (x suf : Line) : Bool :=
  decide (suf.length ≤ List.length x) &&
    decide (List.drop (List.length x - suf.length) x = suf)

/-- Python truthiness of an optional line argument: `None` and the empty
string are falsy. -/
def truthyS (o : Option Line) : Bool :=
  match o with
  | none => false
  | some s => decide (s ≠ ([] : List Char))

/-- The newline-style detection of `merge_lines`: from the first element
of `a` only (suffix `\r\n`, then `\r`, else `\n`; `\n` when `a` is
empty). -/
def detectNewline (a : List Line) : Line :=
  match a with
  | [] => "\n".data
  | x :: _ =>
    if endsWithL x "\r\n".data then "\r\n".data
    else if endsWithL x "\r".data then "\r".data
    else "\n".data

/-- The `for t in merge_regions` rendering loop of `merge_lines`.  A
reprocessed conflict (base range `none`) rendered with a base marker
fails after the base marker line, as the source's `assert iz is not
None` / `range(None, None)` does. -/
def renderRegions (base a b : List Line) (startM midM endM : Line)
    (baseM : Option Line) (newline : Line) :
    List Region → List Line × Option MErr
  | [] => ([], none)
  | r :: rest =>
    let cont := fun (ls : List Line) =>
      let rr := renderRegions base a b startM midM endM baseM newline rest
      (ls ++ rr.1, rr.2)
    match r with
    | .unchanged s e => cont (pySlice base s e)
    | .same s e => cont (pySlice a s e)
    | .sideA s e => cont (pySlice a s e)
    | .sideB s e => cont (pySlice b s e)
    | .conflict zr ia amatch ib bmatch =>
      let head := (startM ++ newline) :: pySlice a ia amatch
      match baseM, zr with
      | some bMark, some (iz, zmatch) =>
        cont (head ++ (bMark ++ newline) :: pySlice base iz zmatch ++
          (midM ++ newline) :: pySlice b ib bmatch ++ [endM ++ newline])
      | some bMark, none => (head ++ [bMark ++ newline], some .noneBaseRender)
      | none, _ =>
        cont (head ++ (midM ++ newline) :: pySlice b ib bmatch ++
          [endM ++ newline])

/-- Combining the error of the rendering pass with the pending error of
the region generator it consumed: whichever surfaces first. -/
def errJoin (o1 o2 : Option MErr) : Option MErr :=
  match o1 with
  | some e => some e
  | none => o2

/-- The body of `merge_lines` with the detected newline passed in:
the eager incompatible-options check, marker defaulting and naming,
optional reprocessing, and rendering.  Only the text (`str`) branch is
modelled; the `bytes` branch is its mirror image. -/
def mergeLinesWith (newline : Line) (base a b : List Line)
    (cherrypick : Bool) (m : Matcher Line)
    (nameA nameB nameBase startM midM endM baseM : Option Line)
    (reprocess : Bool) : List Line × Option MErr :=
  if truthyS baseM && reprocess then ([], some .cantReprocessAndShowBase)
  else
    let start0 := startM.getD "<<<<<<<".data
    let mid0 := midM.getD "=======".data
    let end0 := endM.getD ">>>>>>>".data
    let start1 :=
      if truthyS nameA then start0 ++ " ".data ++ nameA.getD [] else start0
    let end1 :=
      if truthyS nameB then end0 ++ " ".data ++ nameB.getD [] else end0
    let baseM1 :=
      if truthyS nameBase && truthyS baseM then
        some (baseM.getD [] ++ " ".data ++ nameBase.getD [])
      else baseM
    let rr := mergeRegions base a b cherrypick m
    let regs := if reprocess then reprocessRegions a b m rr.1 else rr.1
    let rend := renderRegions base a b start1 mid0 end1 baseM1 newline regs
    (rend.1, errJoin rend.2 rr.2)

/-- `merge_lines(name_a, name_b, name_base, start_marker, mid_marker,
end_marker, base_marker, reprocess)`: the produced lines, and the error
raised after them, if any. -/
def mergeLines (base a b : List Line) (cherrypick : Bool)
    (m : Matcher Line)
    (nameA nameB nameBase startM midM endM baseM : Option Line)
    (reprocess : Bool) : List Line × Option MErr :=
  mergeLinesWith (detectNewline a) base a b cherrypick m
    nameA nameB nameBase startM midM endM baseM reprocess

/-- Monotonicity of a matching-block list: consecutive blocks do not
overlap and appear in order in both sequences. -/
def blocksMono (l : List MBlock) : Prop :=
  List.Chain' (fun x y => x.i + x.n ≤ y.i ∧ x.j + x.n ≤ y.j) l

/-- The matcher contract on one call, over sequences of lengths `la` and
`lb`: the block list is monotone and ends with the zero-length sentinel
block `(la, lb, 0)`. -/
instance blocksMonoDec : (l : List MBlock) → Decidable (blocksMono l)
  | [] => isTrue List.chain'_nil
  | [x] => isTrue (List.chain'_singleton x)
  | _ :: y :: rest =>
    @decidable_of_iff _ _ List.chain'_cons.symm
      (@instDecidableAnd _ _ _ (blocksMonoDec (y :: rest)))

def conformingAt (l : List MBlock) (la lb : Nat) : Prop :=
  l.getLast? = some ⟨la, lb, 0⟩ ∧ blocksMono l

/-- The blocks cover the second sequence contiguously starting at `c`: no
non-matching gap on the `b` side (the only gaps `_refine_cherrypick_conflict`
looks at). -/
def bContiguous : Nat → List MBlock → Bool
  | _, [] => true
  | c, blk :: rest => decide (blk.j = c) && bContiguous (blk.j + blk.n) rest

/-- Shape of a single sync region: ordered base span, and `a`/`b` spans of
the same length as the base span. -/
def SyncShape (s : SyncRegion) : Prop :=
  s.base1 ≤ s.base2 ∧ s.a2 = s.a1 + (s.base2 - s.base1) ∧
    s.b2 = s.b1 + (s.base2 - s.base1)

/-- One sync region ends before the next starts, in all three coordinates. -/
def SyncLE (s t : SyncRegion) : Prop :=
  s.base2 ≤ t.base1 ∧ s.a2 ≤ t.a1 ∧ s.b2 ≤ t.b1

/-- Provenance of a sync region: it arises from intersecting the
base-vs-a match `A` with the base-vs-b match `B`, exactly as the loop
computes it. -/
def SyncProv (A B : MBlock) (s : SyncRegion) : Prop :=
  s.base1 = max A.i B.i ∧ s.base2 = min (A.i + A.n) (B.i + B.n) ∧
  s.base1 < s.base2 ∧ s.a1 = A.j + (s.base1 - A.i) ∧
  s.a2 = s.a1 + (s.base2 - s.base1) ∧ s.b1 = B.j + (s.base1 - B.i) ∧
  s.b2 = s.b1 + (s.base2 - s.base1)

/-- Lower bound of a sync region relative to the current base-vs-a match
`A` of the loop. -/
def syncLBA (A : MBlock) (s : SyncRegion) : Prop :=
  A.i ≤ s.base1 ∧ A.j + (min s.base1 (A.i + A.n) - A.i) ≤ s.a1

/-- Lower bound of a sync region relative to the current base-vs-b match
`B` of the loop. -/
def syncLBB (B : MBlock) (s : SyncRegion) : Prop :=
  B.i ≤ s.base1 ∧ B.j + (min s.base1 (B.i + B.n) - B.i) ≤ s.b1

/-- Well-formedness of a sync-region list as consumed by the
`merge_regions` loop from cursors `(iz, ia, ib)`: each region lies at or
after the cursors, has sync shape, and the list ends exactly at the
sentinel, leaving the cursors at the three lengths. -/
def SyncsWF (lz la lb : Nat) : Nat → Nat → Nat → List SyncRegion → Prop
  | iz, ia, ib, [] => iz = lz ∧ ia = la ∧ ib = lb
  | iz, ia, ib, s :: rest =>
    iz ≤ s.base1 ∧ ia ≤ s.a1 ∧ ib ≤ s.b1 ∧ SyncShape s ∧
      SyncsWF lz la lb s.base2 s.a2 s.b2 rest

/-- A merge region annotated with the three half-open spans of `base`,
`a` and `b` coordinates that the `merge_regions` loop consumed while
emitting it. -/
structure AnnRegion where
  reg : Region
  zspan : Nat × Nat
  aspan : Nat × Nat
  bspan : Nat × Nat
deriving DecidableEq, Repr

/-- The gap-classification block of the (cherry-pick off) `merge_regions`
loop, with the emitted region annotated by the consumed spans.  The
unreachable `a=b=base but unmatched` branch emits nothing. -/
def gapOutputAnn {α : Type} [DecidableEq α] (base a b : List α)
    (iz ia ib : Nat) (sync : SyncRegion) : List AnnRegion :=
  if (sync.a1 : Int) - (ia : Int) ≠ 0 ∨ (sync.b1 : Int) - (ib : Int) ≠ 0 then
    if compareRange a ia sync.a1 b ib sync.b1 then
      [⟨.same ia sync.a1, (iz, sync.base1), (ia, sync.a1), (ib, sync.b1)⟩]
    else
      let equalA := compareRange a ia sync.a1 base iz sync.base1
      let equalB := compareRange b ib sync.b1 base iz sync.base1
      if equalA && !equalB then
        [⟨.sideB ib sync.b1, (iz, sync.base1), (ia, sync.a1), (ib, sync.b1)⟩]
      else if equalB && !equalA then
        [⟨.sideA ia sync.a1, (iz, sync.base1), (ia, sync.a1), (ib, sync.b1)⟩]
      else if !equalA && !equalB then
        [⟨.conflict (some (iz, sync.base1)) ia sync.a1 ib sync.b1,
          (iz, sync.base1), (ia, sync.a1), (ib, sync.b1)⟩]
      else []
  else []

/-- The `merge_regions` loop (cherry-pick mode off), with every emitted
region annotated by the spans it consumes.  When the gap block did not
run, the cursors `ia`, `ib` already sit at `sync.a1`, `sync.b1`, so the
recursive call may use the latter uniformly. -/
def mergeLoopAnn {α : Type} [DecidableEq α] (base a b : List α)
    (m : Matcher α) : Nat → Nat → Nat → List SyncRegion → List AnnRegion
  | _, _, _, [] => []
  | iz, ia, ib, sync :: rest =>
    let gapRegs := gapOutputAnn base a b iz ia ib sync
    if sync.base1 < sync.base2 then
      gapRegs ++ ⟨.unchanged sync.base1 sync.base2, (sync.base1, sync.base2),
        (sync.a1, sync.a2), (sync.b1, sync.b2)⟩ ::
          mergeLoopAnn base a b m sync.base2 sync.a2 sync.b2 rest
    else gapRegs ++ mergeLoopAnn base a b m sync.base1 sync.a1 sync.b1 rest

/-- The annotated region stream of a whole (non-cherry-pick) merge. -/
def annTrace {α : Type} [DecidableEq α] (base a b : List α) (m : Matcher α) :
    List AnnRegion :=
  mergeLoopAnn base a b m 0 0 0 (findSyncRegions base a b m)

/-- The indices of a half-open span. -/
def spanIdx (p : Nat × Nat) : List Nat := List.range' p.1 (p.2 - p.1)

/-- The explicit coordinates carried by a region agree with the spans the
loop consumed for it: `unchanged` carries its base span, `same`/`a` their
`a` span, `b` its `b` span, and a conflict carries all three. -/
def regMatchesSpans (r : AnnRegion) : Prop :=
  match r.reg with
  | .unchanged s e => r.zspan = (s, e)
  | .same s e => r.aspan = (s, e)
  | .sideA s e => r.aspan = (s, e)
  | .sideB s e => r.bspan = (s, e)
  | .conflict zr ia am ib bm =>
    zr = some r.zspan ∧ r.aspan = (ia, am) ∧ r.bspan = (ib, bm)

/-- The partition property of a non-cherry-pick merge: the region stream
is exactly the annotated trace with no error; the consumed `a` spans and
`b` spans reconstruct `0..len(a)` and `0..len(b)` exactly, each index
once, in order; the consumed `base` indices are strictly increasing (no
overlap) and in bounds; and every region's explicit coordinates are the
consumed spans. -/
def partitionConclusion {α : Type} [DecidableEq α] (base a b : List α)
    (m : Matcher α) : Prop :=
  mergeRegions base a b false m = ((annTrace base a b m).map AnnRegion.reg, none) ∧
  ((annTrace base a b m).map fun r => spanIdx r.aspan).flatten =
    List.range a.length ∧
  ((annTrace base a b m).map fun r => spanIdx r.bspan).flatten =
    List.range b.length ∧
  List.Pairwise (· < ·)
    (((annTrace base a b m).map fun r => spanIdx r.zspan).flatten) ∧
  (∀ x ∈ ((annTrace base a b m).map fun r => spanIdx r.zspan).flatten,
    x < base.length) ∧
  ∀ r ∈ annTrace base a b m, regMatchesSpans r

/-- The sentinel-only matcher: no matching blocks besides the terminating
zero-length block (what `difflib` returns when nothing matches). -/
def sentMatcher {α : Type} : Matcher α := fun s t => [⟨s.length, t.length, 0⟩]

/-- Hand-computed `difflib` output for the insertion-clash triple
`base=[0,1]`, `a=[0,2,1]`, `b=[0,3,1]` (both calls return the same
blocks). -/
def clashMatcher : Matcher Nat := fun _ _ => [⟨0, 0, 1⟩, ⟨1, 2, 1⟩, ⟨2, 3, 0⟩]

/-- Hand-computed `difflib` output used when reprocessing the conflict
`a`-range `[1]` against the `b`-range `[2,1]`. -/
def reproMatcher : Matcher Nat := fun s t =>
  if s = [1] && t = [2, 1] then [⟨0, 1, 1⟩, ⟨1, 2, 0⟩]
  else [⟨s.length, t.length, 0⟩]

/-- Hand-computed `difflib` output for re-diffing `base[1:2] = ["b"]`
against `b[1:3] = ["b","c"]` in the cherry-pick refinement scenario. -/
def cherryMatcher : Matcher Line := fun s t =>
  if decide (s = ["b".data]) && decide (t = ["b".data, "c".data]) then
    [⟨0, 0, 1⟩, ⟨1, 2, 0⟩]
  else [⟨s.length, t.length, 0⟩]

/-- A matcher that fully matches equal sequences (as `difflib` does on
identical inputs without junk), sentinel-only otherwise. -/
def fullMatcher {α : Type} [DecidableEq α] : Matcher α := fun s t =>
  if s = t then [⟨0, 0, s.length⟩, ⟨s.length, t.length, 0⟩]
  else [⟨s.length, t.length, 0⟩]

theorem renderRegions_err (base a b : List Line) (startM midM endM : Line)
    (baseM : Option Line) (newline : Line) (regs : List Region) :
    (renderRegions base a b startM midM endM baseM newline regs).2 = none ∨
    (renderRegions base a b startM midM endM baseM newline regs).2 =
      some .noneBaseRender := by
  induction regs with
  | nil => left; rfl
  | cons r rest ih =>
    cases r with
    | unchanged s e => simpa [renderRegions] using ih
    | same s e => simpa [renderRegions] using ih
    | sideA s e => simpa [renderRegions] using ih
    | sideB s e => simpa [renderRegions] using ih
    | conflict zr ia am ib bm =>
      cases baseM with
      | none => simpa [renderRegions] using ih
      | some bMark =>
        cases zr with
        | none => right; rfl
        | some p => simpa [renderRegions] using ih


theorem refineCherrypick_err {α : Type} (base b : List α) (m : Matcher α)
    (z1 z2 a1 a2 b1 b2 : Nat) :
    (refineCherrypick base b m z1 z2 a1 a2 b1 b2).2 = none ∨
    (refineCherrypick base b m z1 z2 a1 a2 b1 b2).2 = some .nameError := by
  simp only [refineCherrypick]
  split
  · split
    · right; rfl
    · left; rfl
  · split
    · left; rfl
    · left; rfl

theorem compareRange_trans {α : Type} [DecidableEq α] (x y z : List α)
    (s e t f s' e' : Nat) (h1 : compareRange x s e z s' e' = true)
    (h2 : compareRange y t f z s' e' = true) :
    compareRange x s e y t f = true := by
  unfold compareRange at h1 h2 ⊢
  split at h1
  · exact absurd h1 (by simp)
  · split at h2
    · exact absurd h2 (by simp)
    · rename_i hx hy
      rw [not_ne_iff] at hx hy
      have hlen : e - s = f - t := by omega
      rw [if_neg (by omega)]
      rw [List.all_eq_true] at h1 h2 ⊢
      intro k hk
      have hk1 := h1 k hk
      have hk2 := h2 k (by rwa [hlen] at hk)
      simp only [decide_eq_true_eq] at hk1 hk2 ⊢
      rw [hk1, hk2]

theorem gapOutput_err {α : Type} [DecidableEq α] (base a b : List α)
    (cp : Bool) (m : Matcher α) (iz ia ib : Nat) (sync : SyncRegion) :
    (gapOutput base a b cp m iz ia ib sync).2 = none ∨
    (gapOutput base a b cp m iz ia ib sync).2 = some .nameError := by
  simp only [gapOutput]
  split
  · split
    · left; rfl
    · split
      · left; rfl
      · split
        · left; rfl
        · split
          · split
            · exact refineCherrypick_err base b m iz sync.base1 ia sync.a1
                ib sync.b1
            · left; rfl
          · -- the a=b=base but unmatched branch is unreachable
            rename_i hsame hA' hB' hAB
            exfalso
            cases hEA : compareRange a ia sync.a1 base iz sync.base1 with
            | false =>
              cases hEB : compareRange b ib sync.b1 base iz sync.base1 with
              | false => exact hAB (by simp [hEA, hEB])
              | true => exact hB' (by simp [hEA, hEB])
            | true =>
              cases hEB : compareRange b ib sync.b1 base iz sync.base1 with
              | false => exact hA' (by simp [hEA, hEB])
              | true => exact hsame (compareRange_trans a b base ia sync.a1
                  ib sync.b1 iz sync.base1 hEA hEB)
  · left; rfl

theorem mergeLoop_err {α : Type} [DecidableEq α] (base a b : List α)
    (cp : Bool) (m : Matcher α) (syncs : List SyncRegion) :
    ∀ iz ia ib, (mergeLoop base a b cp m iz ia ib syncs).2 = none ∨
      (mergeLoop base a b cp m iz ia ib syncs).2 = some .nameError := by
  induction syncs with
  | nil => intro iz ia ib; left; rfl
  | cons sync rest ih =>
    intro iz ia ib
    rw [mergeLoop]
    rcases h : (gapOutput base a b cp m iz ia ib sync).2 with _ | e
    · simp only [h]
      split
      · rcases ih sync.base2 sync.a2 sync.b2 with h' | h' <;> simp [h']
      · rcases ih sync.base1
          (if (sync.a1 : Int) - (ia : Int) ≠ 0 ∨ (sync.b1 : Int) - (ib : Int) ≠ 0
            then sync.a1 else ia)
          (if (sync.a1 : Int) - (ia : Int) ≠ 0 ∨ (sync.b1 : Int) - (ib : Int) ≠ 0
            then sync.b1 else ib) with h' | h' <;> simp [h']
    · simp only [h]
      rcases gapOutput_err base a b cp m iz ia ib sync with h' | h' <;>
        rw [h] at h'
      · exact absurd h' (by simp)
      · right; simpa using h'

theorem mismatchRegion_toList_mem (p q r s x y u v : Nat)
    (h : Region.conflict none x y u v ∈ (mismatchRegion p q r s).toList) :
    x < y ∨ u < v := by
  unfold mismatchRegion at h
  split at h
  · simp only [Option.toList_some, List.mem_singleton, Region.conflict.injEq]
      at h
    omega
  · simp at h

theorem reprocessConflictLoop_residual (ia ib am bm : Nat) :
    ∀ blocks na nb x y u v,
      Region.conflict none x y u v ∈
        reprocessConflictLoop ia ib am bm na nb blocks →
      x < y ∨ u < v := by
  intro blocks
  induction blocks with
  | nil =>
    intro na nb x y u v h
    exact mismatchRegion_toList_mem na am nb bm x y u v h
  | cons blk rest ih =>
    intro na nb x y u v h
    simp only [reprocessConflictLoop, List.mem_append, List.mem_cons] at h
    rcases h with h | h | h
    · exact mismatchRegion_toList_mem na (blk.i + ia) nb (blk.j + ib) x y u v h
    · exact absurd h (by simp)
    · exact ih _ _ x y u v h

theorem reprocessRegions_residual {α : Type} (a b : List α) (m : Matcher α) :
    ∀ (regs : List Region) (x y u v : Nat),
      Region.conflict none x y u v ∈ reprocessRegions a b m regs →
      x < y ∨ u < v := by
  intro regs
  induction regs with
  | nil => intro x y u v h; simp [reprocessRegions] at h
  | cons r rest ih =>
    intro x y u v h
    cases r with
    | conflict zr ria ram rib rbm =>
      simp only [reprocessRegions, List.mem_append] at h
      rcases h with h | h
      · exact reprocessConflictLoop_residual ria rib ram rbm _ ria rib x y u v h
      · exact ih x y u v h
    | unchanged s e =>
      simp only [reprocessRegions, List.mem_cons] at h
      rcases h with h | h
      · exact absurd h (by simp)
      · exact ih x y u v h
    | same s e =>
      simp only [reprocessRegions, List.mem_cons] at h
      rcases h with h | h
      · exact absurd h (by simp)
      · exact ih x y u v h
    | sideA s e =>
      simp only [reprocessRegions, List.mem_cons] at h
      rcases h with h | h
      · exact absurd h (by simp)
      · exact ih x y u v h
    | sideB s e =>
      simp only [reprocessRegions, List.mem_cons] at h
      rcases h with h | h
      · exact absurd h (by simp)
      · exact ih x y u v h

/-- C6: for every input triple and matcher, `find_sync_regions` returns a
non-empty list whose last element is the zero-length sentinel sync region
`(len(base), len(base), len(a), len(a), len(b), len(b))`. -/
theorem find_sync_regions_sentinel {α : Type} (base a b : List α)
    (m : Matcher α) :
    findSyncRegions base a b m ≠ [] ∧
    (findSyncRegions base a b m).getLast? = some
      ⟨base.length, base.length, a.length, a.length, b.length, b.length⟩ := by
  constructor
  · simp [findSyncRegions]
  · simp [findSyncRegions]

/-- C8: the `AssertionError("can't handle a=b=base but unmatched")` branch
of `merge_regions` is unreachable: whenever the `a` gap and the `b` gap
each equal the base gap under `compare_range`, the direct `a`-vs-`b`
comparison also succeeds, so no run of `merge_regions` — any inputs, any
matcher, either cherry-pick mode — ends in that assertion error. -/
theorem merge_regions_assert_unreachable {α : Type} [DecidableEq α]
    (base a b : List α) (cp : Bool) (m : Matcher α) :
    (mergeRegions base a b cp m).2 ≠ some MErr.assertTriple ∧
    ∀ iz zm ia am ib bm,
      compareRange a ia am base iz zm = true →
      compareRange b ib bm base iz zm = true →
      compareRange a ia am b ib bm = true := by
  constructor
  · rcases mergeLoop_err base a b cp m (findSyncRegions base a b m) 0 0 0
      with h | h
    · rw [mergeRegions, h]; simp
    · rw [mergeRegions, h]; simp
  · intro iz zm ia am ib bm hA hB
    exact compareRange_trans a b base ia am ib bm iz zm hA hB

/-- Witness for C8 at a concrete input: the comparison hypotheses hold
and the theorem yields the direct comparison. -/
theorem merge_regions_assert_unreachable_wit :
    (mergeRegions [5] [5] [5] false sentMatcher).2 ≠ some MErr.assertTriple ∧
    compareRange ([5] : List Nat) 0 1 [5] 0 1 = true :=
  ⟨(merge_regions_assert_unreachable [5] [5] [5] false sentMatcher).1,
    (merge_regions_assert_unreachable [5] [5] [5] false sentMatcher).2
      0 1 0 1 0 1 (by decide) (by decide)⟩

/-- C3: `merge_lines` with a truthy base marker and `reprocess=True`
raises `CantReprocessAndShowBase` eagerly: the result is the error with
no output line produced before it. -/
theorem merge_lines_reprocess_base_marker (base a b : List Line)
    (cp : Bool) (m : Matcher Line) (nA nB nBase sM mM eM : Option Line)
    (s : Line) (hs : s ≠ ([] : List Char)) :
    mergeLines base a b cp m nA nB nBase sM mM eM (some s) true =
      ([], some .cantReprocessAndShowBase) := by
  simp [mergeLines, mergeLinesWith, truthyS, hs]

/-- Witness for C3 at a concrete input. -/
theorem merge_lines_reprocess_base_marker_wit :
    ("|||".data ≠ ([] : List Char)) ∧
    mergeLines ["x".data] ["x".data] ["x".data] false sentMatcher none none
      none none none none (some "|||".data) true =
      ([], some .cantReprocessAndShowBase) :=
  ⟨by decide, merge_lines_reprocess_base_marker ["x".data] ["x".data]
    ["x".data] false sentMatcher none none none none none none "|||".data
    (by decide)⟩

/-- C9: the newline appended to synthesized marker lines is determined
solely by the first element of `a` — suffix `\r\n`, then suffix `\r`,
else `\n`, and `\n` when `a` is empty — never by `base` or `b`, which
only enter through the newline-independent body `mergeLinesWith`. -/
theorem merge_lines_newline_from_a :
    (∀ base b cp m nA nB nBase sM mM eM bM rp,
      mergeLines base [] b cp m nA nB nBase sM mM eM bM rp =
        mergeLinesWith "\n".data base [] b cp m nA nB nBase sM mM eM bM rp) ∧
    (∀ base x rest b cp m nA nB nBase sM mM eM bM rp,
      mergeLines base (x :: rest) b cp m nA nB nBase sM mM eM bM rp =
        mergeLinesWith
          (if endsWithL x "\r\n".data then "\r\n".data
           else if endsWithL x "\r".data then "\r".data else "\n".data)
          base (x :: rest) b cp m nA nB nBase sM mM eM bM rp) :=
  ⟨fun _ _ _ _ _ _ _ _ _ _ _ _ => rfl,
   fun _ _ _ _ _ _ _ _ _ _ _ _ _ _ => rfl⟩

/-- C5 counterexample: `mismatch_region(0, 1, 0, 0)` has an empty `b`
sub-range `(0, 0)`, yet the residual conflict is emitted, not dropped —
refuting the claim that a residual with an empty `a` or `b` sub-range is
silently dropped. -/
theorem mismatch_region_empty_side_cex :
    mismatchRegion 0 1 0 0 = some (Region.conflict none 0 1 0 0) := by decide

/-- C5 (amended): a residual conflict is emitted if and only if its `a`
sub-range or its `b` sub-range is non-empty; only a residual with both
sub-ranges empty is dropped.  Consequently every residual (`none`-base)
conflict in the output of `reprocess_merge_regions` has a non-empty `a`
or `b` sub-range. -/
theorem mismatch_region_emitted_iff :
    (∀ na ra nb rb, mismatchRegion na ra nb rb =
      if na < ra ∨ nb < rb then some (Region.conflict none na ra nb rb)
      else none) ∧
    ∀ (α : Type) (a b : List α) (m : Matcher α) (regs : List Region)
      (x y u v : Nat),
      Region.conflict none x y u v ∈ reprocessRegions a b m regs →
      x < y ∨ u < v :=
  ⟨fun _ _ _ _ => rfl,
   fun _ a b m regs x y u v h => reprocessRegions_residual a b m regs x y u v h⟩

/-- Witness for C5's amended claim: a residual with empty `a` sub-range
but non-empty `b` sub-range is emitted by reprocessing, and the theorem
applies to it. -/
theorem mismatch_region_emitted_iff_wit :
    (Region.conflict none 0 0 0 1 ∈ reprocessRegions [1] [2, 1] reproMatcher
      [Region.conflict (some (0, 1)) 0 1 0 2]) ∧ (0 < 0 ∨ 0 < 1) :=
  ⟨by decide,
   mismatch_region_emitted_iff.2 Nat [1] [2, 1] reproMatcher
     [Region.conflict (some (0, 1)) 0 1 0 2] 0 0 0 1 (by decide)⟩

theorem errJoin_ne_cant (o1 o2 : Option MErr)
    (h1 : o1 = none ∨ o1 = some .noneBaseRender)
    (h2 : o2 = none ∨ o2 = some .nameError) :
    errJoin o1 o2 ≠ some MErr.cantReprocessAndShowBase := by
  rcases h1 with h | h <;> rcases h2 with h' | h' <;> simp [errJoin, h, h']

theorem mergeRegions_err {α : Type} [DecidableEq α] (base a b : List α)
    (cp : Bool) (m : Matcher α) :
    (mergeRegions base a b cp m).2 = none ∨
    (mergeRegions base a b cp m).2 = some .nameError :=
  mergeLoop_err base a b cp m (findSyncRegions base a b m) 0 0 0

/-- C10: the incompatibility check of `merge_lines` tests truthiness, not
presence: with `reprocess=True` and the empty string as base marker,
`CantReprocessAndShowBase` is never raised — for any input — and the call
proceeds through the reprocessed pipeline, e.g. producing the merged
output `["y"]` for the triple `(["x"], ["y"], ["y"])`. -/
theorem merge_lines_empty_base_marker :
    (∀ (base a b : List Line) (cp : Bool) (m : Matcher Line)
      (nA nB nBase sM mM eM : Option Line),
      (mergeLines base a b cp m nA nB nBase sM mM eM (some []) true).2 ≠
        some MErr.cantReprocessAndShowBase) ∧
    mergeLines ["x".data] ["y".data] ["y".data] false sentMatcher none none
      none none none none (some []) true = (["y".data], none) := by
  constructor
  · intro base a b cp m nA nB nBase sM mM eM
    have hb : (truthyS (some []) && true) = false := by decide
    unfold mergeLines mergeLinesWith
    rw [hb]
    simp only [Bool.false_eq_true, if_false]
    exact errJoin_ne_cant _ _ (renderRegions_err _ _ _ _ _ _ _ _ _)
      (mergeRegions_err _ _ _ _ _)
  · decide

theorem compareRange_iff_pySlice {α : Type} [DecidableEq α] (xs ys : List α)
    (s e t f : Nat) (hse : s ≤ e) (he : e ≤ xs.length) (htf : t ≤ f)
    (hf : f ≤ ys.length) :
    compareRange xs s e ys t f = true ↔ pySlice xs s e = pySlice ys t f := by
  unfold compareRange pySlice
  have hlen1 : ((xs.drop s).take (e - s)).length = e - s := by
    simp only [List.length_take, List.length_drop]
    omega
  have hlen2 : ((ys.drop t).take (f - t)).length = f - t := by
    simp only [List.length_take, List.length_drop]
    omega
  have hget1 : ∀ n, n < e - s → ((xs.drop s).take (e - s))[n]? = xs[s + n]? := by
    intro n hn
    rw [List.getElem?_take, if_pos hn, List.getElem?_drop]
  have hget2 : ∀ n, n < f - t → ((ys.drop t).take (f - t))[n]? = ys[t + n]? := by
    intro n hn
    rw [List.getElem?_take, if_pos hn, List.getElem?_drop]
  split
  · rename_i hne
    constructor
    · intro h
      exact absurd h (by simp)
    · intro h
      exfalso
      have := congrArg List.length h
      rw [hlen1, hlen2] at this
      omega
  · rename_i heq
    rw [not_ne_iff] at heq
    have hnat : e - s = f - t := by omega
    rw [List.all_eq_true]
    constructor
    · intro h
      apply List.ext_getElem?
      intro n
      rcases lt_or_ge n (e - s) with hn | hn
      · rw [hget1 n hn, hget2 n (by omega)]
        simpa using h n (List.mem_range.mpr hn)
      · rw [List.getElem?_eq_none (by omega), List.getElem?_eq_none (by omega)]
    · intro h k hk
      have hk' := List.mem_range.mp hk
      have := congrArg (fun l => l[k]?) h
      simp only at this
      rw [hget1 k hk', hget2 k (by omega)] at this
      simpa using this

/-- C2: for a gap between consecutive sync regions that is non-empty in
`a` or `b` (cherry-pick off), `merge_regions` emits exactly one region
for the gap, the head of the remaining stream, determined by elementwise
comparison of the gap contents: `same` when the `a` gap equals the `b`
gap; else `b` when the `a` gap equals the base gap (the `b` gap then
necessarily differs); else `a` when the `b` gap equals the base gap; else
a conflict carrying all three gap ranges. -/
theorem merge_regions_gap_classification {α : Type} [DecidableEq α]
    (base a b : List α) (m : Matcher α) (iz ia ib : Nat) (sync : SyncRegion)
    (rest : List SyncRegion)
    (hia : ia ≤ sync.a1) (ha : sync.a1 ≤ a.length)
    (hib : ib ≤ sync.b1) (hb : sync.b1 ≤ b.length)
    (hiz : iz ≤ sync.base1) (hz : sync.base1 ≤ base.length)
    (hgap : ia < sync.a1 ∨ ib < sync.b1) :
    (mergeLoop base a b false m iz ia ib (sync :: rest)).1.head? = some
      (if pySlice a ia sync.a1 = pySlice b ib sync.b1 then
        Region.same ia sync.a1
      else if pySlice a ia sync.a1 = pySlice base iz sync.base1 then
        Region.sideB ib sync.b1
      else if pySlice b ib sync.b1 = pySlice base iz sync.base1 then
        Region.sideA ia sync.a1
      else Region.conflict (some (iz, sync.base1)) ia sync.a1 ib sync.b1) := by
  have hcond : ((sync.a1 : Int) - (ia : Int) ≠ 0 ∨
      (sync.b1 : Int) - (ib : Int) ≠ 0) := by omega
  have hAB := compareRange_iff_pySlice a b ia sync.a1 ib sync.b1 hia ha hib hb
  have hAZ := compareRange_iff_pySlice a base ia sync.a1 iz sync.base1 hia ha
    hiz hz
  have hBZ := compareRange_iff_pySlice b base ib sync.b1 iz sync.base1 hib hb
    hiz hz
  rw [mergeLoop]
  have hgapOut : gapOutput base a b false m iz ia ib sync = ([
      if pySlice a ia sync.a1 = pySlice b ib sync.b1 then
        Region.same ia sync.a1
      else if pySlice a ia sync.a1 = pySlice base iz sync.base1 then
        Region.sideB ib sync.b1
      else if pySlice b ib sync.b1 = pySlice base iz sync.base1 then
        Region.sideA ia sync.a1
      else Region.conflict (some (iz, sync.base1)) ia sync.a1 ib sync.b1],
      none) := by
    unfold gapOutput
    rw [if_pos hcond]
    by_cases hsame : pySlice a ia sync.a1 = pySlice b ib sync.b1
    · rw [if_pos (hAB.mpr hsame), if_pos hsame]
    · rw [if_neg (fun hc => hsame (hAB.mp hc)), if_neg hsame]
      by_cases hza : pySlice a ia sync.a1 = pySlice base iz sync.base1
      · have heA : compareRange a ia sync.a1 base iz sync.base1 = true :=
          hAZ.mpr hza
        have heB : compareRange b ib sync.b1 base iz sync.base1 = false := by
          cases hEB : compareRange b ib sync.b1 base iz sync.base1 with
          | false => rfl
          | true =>
            exact absurd (compareRange_trans a b base ia sync.a1 ib sync.b1
              iz sync.base1 heA hEB) (fun hc => hsame (hAB.mp hc))
        rw [heA, heB]
        simp [hza]
      · have heA : compareRange a ia sync.a1 base iz sync.base1 = false := by
          cases hEA : compareRange a ia sync.a1 base iz sync.base1 with
          | false => rfl
          | true => exact absurd (hAZ.mp hEA) hza
        rw [heA, if_neg hza]
        by_cases hzb : pySlice b ib sync.b1 = pySlice base iz sync.base1
        · have heB : compareRange b ib sync.b1 base iz sync.base1 = true :=
            hBZ.mpr hzb
          rw [heB]
          simp [hzb]
        · have heB : compareRange b ib sync.b1 base iz sync.base1 = false := by
            cases hEB : compareRange b ib sync.b1 base iz sync.base1 with
            | false => rfl
            | true => exact absurd (hBZ.mp hEB) hzb
          rw [heB, if_neg hzb]
          simp
  rw [hgapOut]
  simp only
  split <;> simp

/-- Witness for C2 at a concrete input: a gap where both sides changed
differently, classified as a conflict. -/
theorem merge_regions_gap_classification_wit :
    ((0 : Nat) < 1 ∨ (0 : Nat) < 1) ∧
    (mergeLoop [9] [1] [2] false sentMatcher 0 0 0
      [⟨1, 1, 1, 1, 1, 1⟩]).1.head? = some
      (if pySlice [1] 0 1 = pySlice [2] 0 1 then Region.same 0 1
       else if pySlice [1] 0 1 = pySlice [9] 0 1 then Region.sideB 0 1
       else if pySlice [2] 0 1 = pySlice [9] 0 1 then Region.sideA 0 1
       else Region.conflict (some (0, 1)) 0 1 0 1) :=
  ⟨Or.inl (by decide),
   merge_regions_gap_classification [9] [1] [2] sentMatcher 0 0 0
     ⟨1, 1, 1, 1, 1, 1⟩ [] (by decide) (by decide) (by decide) (by decide)
     (by decide) (by decide) (Or.inl (by decide))⟩

/-- C7 counterexample: for the empty base (merged with an honest matcher,
which can only return the sentinel block), `merge_regions` on
`(base, base, base)` yields no region at all, not one `unchanged` region
spanning `(0, len(base))` — so the claim fails at `base = []`. -/
theorem merge_identity_empty_cex :
    mergeRegions ([] : List Nat) [] [] false sentMatcher = ([], none) ∧
    ([] : List Region) ≠ [Region.unchanged 0 0] := by
  constructor
  · decide
  · decide

/-- C7 (amended): for every non-empty `base` and any matcher that returns
the full-sequence match on the identical pair `(base, base)` (as
`difflib` does), merging `(base, base, base)` yields exactly one
`unchanged` region spanning `(0, len(base))` and no conflict. -/
theorem merge_identity {α : Type} [DecidableEq α] (base : List α)
    (m : Matcher α) (hne : base ≠ [])
    (hm : m base base =
      [⟨0, 0, base.length⟩, ⟨base.length, base.length, 0⟩]) :
    mergeRegions base base base false m =
      ([Region.unchanged 0 base.length], none) := by
  have hn : 0 < base.length := List.length_pos.mpr hne
  have hsync : findSyncRegions base base base m =
      [⟨0, base.length, 0, base.length, 0, base.length⟩,
       ⟨base.length, base.length, base.length, base.length, base.length,
        base.length⟩] := by
    rw [findSyncRegions, hm]
    simp [syncLoop, syncLoopInner, intersect, hn, Nat.lt_irrefl]
  rw [mergeRegions, hsync]
  rw [mergeLoop]
  have hgap1 : gapOutput base base base false m 0 0 0
      ⟨0, base.length, 0, base.length, 0, base.length⟩ = ([], none) := by
    unfold gapOutput
    simp
  rw [hgap1]
  simp only [if_pos hn]
  rw [mergeLoop]
  have hgap2 : gapOutput base base base false m base.length base.length
      base.length ⟨base.length, base.length, base.length, base.length,
        base.length, base.length⟩ = ([], none) := by
    unfold gapOutput
    simp
  rw [hgap2]
  simp [mergeLoop, Nat.lt_irrefl]

/-- Witness for C7's amended claim at a concrete input. -/
theorem merge_identity_wit :
    ([7, 8, 9] ≠ ([] : List Nat)) ∧
    fullMatcher [7, 8, 9] [7, 8, 9] = [⟨0, 0, 3⟩, ⟨3, 3, 0⟩] ∧
    mergeRegions [7, 8, 9] [7, 8, 9] [7, 8, 9] false fullMatcher =
      ([Region.unchanged 0 3], none) :=
  ⟨by decide, by decide,
   merge_identity [7, 8, 9] fullMatcher (by decide) (by decide)⟩

theorem refineLoop_shape (z a1 a2 b1 : Nat) :
    ∀ (blocks : List MBlock) (lb lbi : Nat),
      ((∀ r ∈ (refineLoop z a1 a2 b1 lb lbi true blocks).1,
        ∃ zr u v, r = Region.conflict (some zr) a2 a2 u v) ∧
       (refineLoop z a1 a2 b1 lb lbi true blocks).2.2.2 = true) ∧
      ((refineLoop z a1 a2 b1 lb lbi false blocks).1 = [] ∧
        (refineLoop z a1 a2 b1 lb lbi false blocks).2.2.2 = false ∨
       ∃ zr u v rest',
         (refineLoop z a1 a2 b1 lb lbi false blocks).1 =
           Region.conflict (some zr) a1 a2 u v :: rest' ∧
         (∀ r ∈ rest',
           ∃ zr' u' v', r = Region.conflict (some zr') a2 a2 u' v') ∧
         (refineLoop z a1 a2 b1 lb lbi false blocks).2.2.2 = true) := by
  intro blocks
  induction blocks with
  | nil =>
    intro lb lbi
    refine ⟨⟨by simp [refineLoop], rfl⟩, Or.inl ⟨rfl, rfl⟩⟩
  | cons blk rest ih =>
    intro lb lbi
    by_cases hj : (blk.j : Int) - (lbi : Int) = 0
    · constructor
      · constructor
        · intro r hr
          simp only [refineLoop, if_pos hj, List.nil_append] at hr
          exact ((ih (blk.i + blk.n) (blk.j + blk.n)).1).1 r hr
        · simp only [refineLoop, if_pos hj]
          exact ((ih (blk.i + blk.n) (blk.j + blk.n)).1).2
      · simp only [refineLoop, if_pos hj, List.nil_append]
        exact (ih (blk.i + blk.n) (blk.j + blk.n)).2
    · constructor
      · constructor
        · intro r hr
          simp [refineLoop, if_neg hj] at hr
          rcases hr with hr | hr
          · exact ⟨_, _, _, hr⟩
          · exact ((ih (blk.i + blk.n) (blk.j + blk.n)).1).1 r hr
        · simp only [refineLoop, if_neg hj]
          exact ((ih (blk.i + blk.n) (blk.j + blk.n)).1).2
      · right
        refine ⟨(z + lb, z + blk.i), b1 + lbi, b1 + blk.j,
          (refineLoop z a1 a2 b1 (blk.i + blk.n) (blk.j + blk.n) true rest).1,
          ?_, ?_, ?_⟩
        · simp [refineLoop, if_neg hj]
        · exact ((ih (blk.i + blk.n) (blk.j + blk.n)).1).1
        · simp only [refineLoop, if_neg hj]
          exact ((ih (blk.i + blk.n) (blk.j + blk.n)).1).2

theorem refineLoop_final (z a1 a2 b1 : Nat) :
    ∀ (blocks : List MBlock) (lb lbi : Nat) (ya : Bool) (L : MBlock),
      blocks.getLast? = some L →
      (refineLoop z a1 a2 b1 lb lbi ya blocks).2.1 = L.i + L.n ∧
      (refineLoop z a1 a2 b1 lb lbi ya blocks).2.2.1 = L.j + L.n := by
  intro blocks
  induction blocks with
  | nil => intro lb lbi ya L h; simp at h
  | cons blk rest ih =>
    intro lb lbi ya L h
    cases rest with
    | nil =>
      simp only [List.getLast?_singleton, Option.some_inj] at h
      subst h
      simp [refineLoop]
    | cons blk2 rest2 =>
      rw [List.getLast?_cons_cons] at h
      have := ih (blk.i + blk.n) (blk.j + blk.n)
        (if (blk.j : Int) - (lbi : Int) = 0 then ya else true) L h
      simpa [refineLoop] using this

theorem refineLoop_contiguous (z a1 a2 b1 : Nat) :
    ∀ (blocks : List MBlock) (lb lbi : Nat) (ya : Bool),
      bContiguous lbi blocks = true →
      (refineLoop z a1 a2 b1 lb lbi ya blocks).1 = [] ∧
      (refineLoop z a1 a2 b1 lb lbi ya blocks).2.2.2 = ya := by
  intro blocks
  induction blocks with
  | nil => intro lb lbi ya _; exact ⟨rfl, rfl⟩
  | cons blk rest ih =>
    intro lb lbi ya h
    simp only [bContiguous, Bool.and_eq_true, decide_eq_true_eq] at h
    have hj : (blk.j : Int) - (lbi : Int) = 0 := by omega
    have := ih (blk.i + blk.n) (blk.j + blk.n) ya h.2
    constructor
    · simp only [refineLoop, if_pos hj, List.nil_append]
      exact this.1
    · simp only [refineLoop, if_pos hj]
      exact this.2

/-- C4: with a sentinel-terminated match list for `base[zstart:zend]` vs
`b[bstart:bend]`, `_refine_cherrypick_conflict` raises nothing and emits
at least one region, all of them conflicts; the first carries the entire
original `a` range `(astart, aend)`, every later one the empty `a` range
`(aend, aend)`; and when the re-diff leaves no non-matching gap on the
`b` side it emits exactly one conflict covering the entire original
ranges. -/
theorem refine_cherrypick_structure {α : Type} (base b : List α)
    (m : Matcher α) (zstart zend astart aend bstart bend : Nat)
    (hz : zstart ≤ zend) (hbd : bstart ≤ bend)
    (hsent : (m (pySlice base zstart zend) (pySlice b bstart bend)).getLast? =
      some ⟨zend - zstart, bend - bstart, 0⟩) :
    (refineCherrypick base b m zstart zend astart aend bstart bend).2 = none ∧
    (refineCherrypick base b m zstart zend astart aend bstart bend).1 ≠ [] ∧
    (∀ r ∈ (refineCherrypick base b m zstart zend astart aend bstart bend).1,
      ∃ zr x y u v, r = Region.conflict (some zr) x y u v) ∧
    (∀ r ∈ (refineCherrypick base b m zstart zend astart aend bstart
        bend).1.head?, ∃ zr u v, r = Region.conflict (some zr) astart aend u v) ∧
    (∀ r ∈ (refineCherrypick base b m zstart zend astart aend bstart
        bend).1.tail, ∃ zr u v, r = Region.conflict (some zr) aend aend u v) ∧
    (bContiguous 0 (m (pySlice base zstart zend) (pySlice b bstart bend)) =
        true →
      (refineCherrypick base b m zstart zend astart aend bstart bend).1 =
        [Region.conflict (some (zstart, zend)) astart aend bstart bend]) := by
  have hfin := refineLoop_final zstart astart aend bstart
    (m (pySlice base zstart zend) (pySlice b bstart bend)) 0 0 false
    ⟨zend - zstart, bend - bstart, 0⟩ hsent
  have hRC : refineCherrypick base b m zstart zend astart aend bstart bend =
      (if !(refineLoop zstart astart aend bstart 0 0 false
          (m (pySlice base zstart zend) (pySlice b bstart bend))).2.2.2 then
        ((refineLoop zstart astart aend bstart 0 0 false
          (m (pySlice base zstart zend) (pySlice b bstart bend))).1 ++
          [Region.conflict (some (zstart, zend)) astart aend bstart bend],
          none)
      else ((refineLoop zstart astart aend bstart 0 0 false
          (m (pySlice base zstart zend) (pySlice b bstart bend))).1, none)) := by
    simp only [refineCherrypick]
    rw [if_neg (by rw [hfin.1, hfin.2]; dsimp only; omega)]
  rcases (refineLoop_shape zstart astart aend bstart
      (m (pySlice base zstart zend) (pySlice b bstart bend)) 0 0).2 with
    ⟨hnil, hya⟩ | ⟨zr, u, v, rest', hcons, hrest, hya⟩
  · rw [hRC, hya, hnil]
    refine ⟨by simp, by simp, ?_, ?_, ?_, fun _ => by simp⟩
    · intro r hr
      simp at hr
      exact ⟨_, _, _, _, _, hr⟩
    · intro r hr
      simp at hr
      exact ⟨_, _, _, hr.symm⟩
    · intro r hr
      simp at hr
  · rw [hRC, hya, hcons]
    simp only [Bool.not_true, Bool.false_eq_true, if_false]
    refine ⟨by trivial, by simp, ?_, ?_, ?_, ?_⟩
    · intro r hr
      rcases List.mem_cons.mp hr with hr | hr
      · exact ⟨_, _, _, _, _, hr⟩
      · rcases hrest r hr with ⟨zr', u', v', hr'⟩
        exact ⟨_, _, _, _, _, hr'⟩
    · intro r hr
      simp only [List.head?_cons, Option.mem_def, Option.some_inj] at hr
      exact ⟨_, _, _, hr.symm⟩
    · intro r hr
      simp only [List.tail_cons] at hr
      rcases hrest r hr with ⟨zr', u', v', hr'⟩
      exact ⟨_, _, _, hr'⟩
    · intro hcont
      exfalso
      have := (refineLoop_contiguous zstart astart aend bstart
        (m (pySlice base zstart zend) (pySlice b bstart bend)) 0 0 false
        hcont).1
      rw [hcons] at this
      exact absurd this (by simp)

/-- Witness for C4 at a concrete input: cherry-pick refinement of the
conflict `base[1:2] = [b]` vs `b[1:3] = [b, c]` with `a` range `(1, 1)`. -/
theorem refine_cherrypick_structure_wit :
    ((1 : Nat) ≤ 2 ∧ (1 : Nat) ≤ 3 ∧
      (cherryMatcher (pySlice ["a".data, "b".data] 1 2)
        (pySlice ["a".data, "b".data, "c".data] 1 3)).getLast? =
        some ⟨1, 2, 0⟩) ∧
    (refineCherrypick ["a".data, "b".data] ["a".data, "b".data, "c".data]
      cherryMatcher 1 2 1 1 1 3).2 = none ∧
    (refineCherrypick ["a".data, "b".data] ["a".data, "b".data, "c".data]
      cherryMatcher 1 2 1 1 1 3).1 ≠ [] :=
  ⟨⟨by decide, by decide, by decide⟩,
   (refine_cherrypick_structure ["a".data, "b".data]
     ["a".data, "b".data, "c".data] cherryMatcher 1 2 1 1 1 3 (by decide)
     (by decide) (by decide)).1,
   (refine_cherrypick_structure ["a".data, "b".data]
     ["a".data, "b".data, "c".data] cherryMatcher 1 2 1 1 1 3 (by decide)
     (by decide) (by decide)).2.1⟩

theorem intersect_some (x1 x2 y1 y2 sa sb : Nat)
    (h : intersect (x1, x2) (y1, y2) = some (sa, sb)) :
    sa = max x1 y1 ∧ sb = min x2 y2 ∧ sa < sb := by
  simp only [intersect] at h
  split at h
  · rename_i hlt
    simp only [Option.some_inj, Prod.mk.injEq] at h
    exact ⟨h.1.symm, h.2.symm, by omega⟩
  · simp at h

theorem syncLoop_prov : ∀ (am bm : List MBlock), ∀ s ∈ syncLoop am bm,
    ∃ A ∈ am, ∃ B ∈ bm, SyncProv A B s := by
  intro am
  induction am with
  | nil => intro bm s hs; simp [syncLoop] at hs
  | cons A am ihA =>
    intro bm
    induction bm with
    | nil =>
      intro s hs
      rw [syncLoop] at hs
      simp [syncLoopInner] at hs
    | cons B bm ihB =>
      intro s hs
      rw [syncLoop] at hs
      by_cases hc : A.i + A.n < B.i + B.n
      · rcases hI : intersect (A.i, A.i + A.n) (B.i, B.i + B.n) with _ | ⟨sa, sb⟩
        · simp only [syncLoopInner, hI, if_pos hc] at hs
          rcases ihA (B :: bm) s hs with ⟨A', hA', B', hB', hprov⟩
          exact ⟨A', List.mem_cons_of_mem A hA', B', hB', hprov⟩
        · simp only [syncLoopInner, hI, if_pos hc, List.mem_cons] at hs
          rcases hs with hs | hs
          · subst hs
            rcases intersect_some _ _ _ _ _ _ hI with ⟨hsa, hsb, hlt⟩
            refine ⟨A, List.mem_cons_self A _, B, List.mem_cons_self B _, ?_⟩
            unfold SyncProv
            dsimp only
            omega
          · rcases ihA (B :: bm) s hs with ⟨A', hA', B', hB', hprov⟩
            exact ⟨A', List.mem_cons_of_mem A hA', B', hB', hprov⟩
      · rcases hI : intersect (A.i, A.i + A.n) (B.i, B.i + B.n) with _ | ⟨sa, sb⟩
        · simp only [syncLoopInner, hI, if_neg hc] at hs
          rw [show syncLoopInner (syncLoop am) A bm = syncLoop (A :: am) bm
            from rfl] at hs
          rcases ihB s hs with ⟨A', hA', B', hB', hprov⟩
          exact ⟨A', hA', B', List.mem_cons_of_mem B hB', hprov⟩
        · simp only [syncLoopInner, hI, if_neg hc, List.mem_cons] at hs
          rcases hs with hs | hs
          · subst hs
            rcases intersect_some _ _ _ _ _ _ hI with ⟨hsa, hsb, hlt⟩
            refine ⟨A, List.mem_cons_self A _, B, List.mem_cons_self B _, ?_⟩
            unfold SyncProv
            dsimp only
            omega
          · rw [show syncLoopInner (syncLoop am) A bm = syncLoop (A :: am) bm
              from rfl] at hs
            rcases ihB s hs with ⟨A', hA', B', hB', hprov⟩
            exact ⟨A', hA', B', List.mem_cons_of_mem B hB', hprov⟩

theorem syncLBA_step (A A' : MBlock) (s : SyncRegion) (h : syncLBA A' s)
    (h1 : A.i + A.n ≤ A'.i) (h2 : A.j + A.n ≤ A'.j) : syncLBA A s := by
  unfold syncLBA at *
  omega

theorem syncLBB_step (B B' : MBlock) (s : SyncRegion) (h : syncLBB B' s)
    (h1 : B.i + B.n ≤ B'.i) (h2 : B.j + B.n ≤ B'.j) : syncLBB B s := by
  unfold syncLBB at *
  omega

theorem syncLoop_lb : ∀ (am bm : List MBlock), blocksMono am →
    blocksMono bm → ∀ s ∈ syncLoop am bm,
      (∀ A, am.head? = some A → syncLBA A s) ∧
      (∀ B, bm.head? = some B → syncLBB B s) := by
  intro am
  induction am with
  | nil => intro bm _ _ s hs; simp [syncLoop] at hs
  | cons A am ihA =>
    intro bm
    induction bm with
    | nil =>
      intro _ _ s hs
      rw [syncLoop] at hs
      simp [syncLoopInner] at hs
    | cons B bm ihB =>
      intro hma hmb s hs
      have hma' : blocksMono am := (List.chain'_cons'.mp hma).2
      have hmb' : blocksMono bm := (List.chain'_cons'.mp hmb).2
      rw [syncLoop] at hs
      by_cases hc : A.i + A.n < B.i + B.n
      · rcases hI : intersect (A.i, A.i + A.n) (B.i, B.i + B.n) with _ | ⟨sa, sb⟩
        · simp only [syncLoopInner, hI, if_pos hc] at hs
          cases am with
          | nil => simp [syncLoop] at hs
          | cons A' am2 =>
            have hrel := (List.chain'_cons'.mp hma).1 A' rfl
            have ih := ihA (B :: bm) hma' hmb s hs
            refine ⟨fun A0 hA0 => ?_, ih.2⟩
            simp only [List.head?_cons, Option.some_inj] at hA0
            subst hA0
            exact syncLBA_step A A' s (ih.1 A' rfl) hrel.1 hrel.2
        · rcases intersect_some _ _ _ _ _ _ hI with ⟨hsa, hsb, hlt⟩
          simp only [syncLoopInner, hI, if_pos hc, List.mem_cons] at hs
          rcases hs with hs | hs
          · subst hs
            constructor
            · intro A0 hA0
              simp only [List.head?_cons, Option.some_inj] at hA0
              subst hA0
              unfold syncLBA
              dsimp only
              omega
            · intro B0 hB0
              simp only [List.head?_cons, Option.some_inj] at hB0
              subst hB0
              unfold syncLBB
              dsimp only
              omega
          · cases am with
            | nil => simp [syncLoop] at hs
            | cons A' am2 =>
              have hrel := (List.chain'_cons'.mp hma).1 A' rfl
              have ih := ihA (B :: bm) hma' hmb s hs
              refine ⟨fun A0 hA0 => ?_, ih.2⟩
              simp only [List.head?_cons, Option.some_inj] at hA0
              subst hA0
              exact syncLBA_step A A' s (ih.1 A' rfl) hrel.1 hrel.2
      · rcases hI : intersect (A.i, A.i + A.n) (B.i, B.i + B.n) with _ | ⟨sa, sb⟩
        · simp only [syncLoopInner, hI, if_neg hc] at hs
          rw [show syncLoopInner (syncLoop am) A bm = syncLoop (A :: am) bm
            from rfl] at hs
          cases bm with
          | nil =>
            rw [syncLoop] at hs
            simp [syncLoopInner] at hs
          | cons B' bm2 =>
            have hrel := (List.chain'_cons'.mp hmb).1 B' rfl
            have ih := ihB hma hmb' s hs
            refine ⟨ih.1, fun B0 hB0 => ?_⟩
            simp only [List.head?_cons, Option.some_inj] at hB0
            subst hB0
            exact syncLBB_step B B' s (ih.2 B' rfl) hrel.1 hrel.2
        · rcases intersect_some _ _ _ _ _ _ hI with ⟨hsa, hsb, hlt⟩
          simp only [syncLoopInner, hI, if_neg hc, List.mem_cons] at hs
          rcases hs with hs | hs
          · subst hs
            constructor
            · intro A0 hA0
              simp only [List.head?_cons, Option.some_inj] at hA0
              subst hA0
              unfold syncLBA
              dsimp only
              omega
            · intro B0 hB0
              simp only [List.head?_cons, Option.some_inj] at hB0
              subst hB0
              unfold syncLBB
              dsimp only
              omega
          · rw [show syncLoopInner (syncLoop am) A bm = syncLoop (A :: am) bm
              from rfl] at hs
            cases bm with
            | nil =>
              rw [syncLoop] at hs
              simp [syncLoopInner] at hs
            | cons B' bm2 =>
              have hrel := (List.chain'_cons'.mp hmb).1 B' rfl
              have ih := ihB hma hmb' s hs
              refine ⟨ih.1, fun B0 hB0 => ?_⟩
              simp only [List.head?_cons, Option.some_inj] at hB0
              subst hB0
              exact syncLBB_step B B' s (ih.2 B' rfl) hrel.1 hrel.2

theorem syncLoop_chain : ∀ (am bm : List MBlock), blocksMono am →
    blocksMono bm → List.Chain' SyncLE (syncLoop am bm) := by
  intro am
  induction am with
  | nil => intro bm _ _; simp [syncLoop, List.chain'_nil]
  | cons A am ihA =>
    intro bm
    induction bm with
    | nil =>
      intro _ _
      rw [syncLoop]
      simp [syncLoopInner, List.chain'_nil]
    | cons B bm ihB =>
      intro hma hmb
      have hma' : blocksMono am := (List.chain'_cons'.mp hma).2
      have hmb' : blocksMono bm := (List.chain'_cons'.mp hmb).2
      rw [syncLoop]
      by_cases hc : A.i + A.n < B.i + B.n
      · have hrest : List.Chain' SyncLE (syncLoop am (B :: bm)) :=
          ihA (B :: bm) hma' hmb
        rcases hI : intersect (A.i, A.i + A.n) (B.i, B.i + B.n) with _ | ⟨sa, sb⟩
        · simpa only [syncLoopInner, hI, if_pos hc] using hrest
        · rcases intersect_some _ _ _ _ _ _ hI with ⟨hsa, hsb, hlt⟩
          simp only [syncLoopInner, hI, if_pos hc]
          rw [List.chain'_cons']
          refine ⟨?_, hrest⟩
          intro t ht
          have htm := List.mem_of_mem_head? ht
          cases am with
          | nil => simp [syncLoop] at htm
          | cons A' am2 =>
            have hrel := (List.chain'_cons'.mp hma).1 A' rfl
            have hlb := syncLoop_lb (A' :: am2) (B :: bm) hma' hmb t htm
            have hlbA := hlb.1 A' rfl
            have hlbB := hlb.2 B rfl
            unfold syncLBA at hlbA
            unfold syncLBB at hlbB
            unfold SyncLE
            dsimp only
            omega
      · have hrest : List.Chain' SyncLE (syncLoop (A :: am) bm) :=
          ihB hma hmb'
        rcases hI : intersect (A.i, A.i + A.n) (B.i, B.i + B.n) with _ | ⟨sa, sb⟩
        · simpa only [syncLoopInner, hI, if_neg hc,
            show syncLoopInner (syncLoop am) A bm = syncLoop (A :: am) bm
              from rfl] using hrest
        · rcases intersect_some _ _ _ _ _ _ hI with ⟨hsa, hsb, hlt⟩
          simp only [syncLoopInner, hI, if_neg hc,
            show syncLoopInner (syncLoop am) A bm = syncLoop (A :: am) bm
              from rfl]
          rw [List.chain'_cons']
          refine ⟨?_, hrest⟩
          intro t ht
          have htm := List.mem_of_mem_head? ht
          cases bm with
          | nil =>
            rw [syncLoop] at htm
            simp [syncLoopInner] at htm
          | cons B' bm2 =>
            have hrel := (List.chain'_cons'.mp hmb).1 B' rfl
            have hlb := syncLoop_lb (A :: am) (B' :: bm2) hma hmb' t htm
            have hlbA := hlb.1 A rfl
            have hlbB := hlb.2 B' rfl
            unfold syncLBA at hlbA
            unfold syncLBB at hlbB
            unfold SyncLE
            dsimp only
            omega

theorem blocksMono_last_bound : ∀ (l : List MBlock) (L : MBlock),
    blocksMono l → l.getLast? = some L →
    ∀ blk ∈ l, blk.i + blk.n ≤ L.i + L.n ∧ blk.j + blk.n ≤ L.j + L.n := by
  intro l
  induction l with
  | nil => intro L _ h; simp at h
  | cons X l' ih =>
    intro L hm hl blk hblk
    cases l' with
    | nil =>
      simp only [List.getLast?_singleton, Option.some_inj] at hl
      subst hl
      simp only [List.mem_singleton] at hblk
      subst hblk
      exact ⟨le_refl _, le_refl _⟩
    | cons Y l2 =>
      rw [List.getLast?_cons_cons] at hl
      have hm' : blocksMono (Y :: l2) := (List.chain'_cons'.mp hm).2
      have hrel := (List.chain'_cons'.mp hm).1 Y rfl
      rcases List.mem_cons.mp hblk with hblk | hblk
      · subst hblk
        have hY := ih L hm' hl Y (List.mem_cons_self Y l2)
        constructor
        · calc blk.i + blk.n ≤ Y.i := hrel.1
            _ ≤ Y.i + Y.n := Nat.le_add_right _ _
            _ ≤ L.i + L.n := hY.1
        · calc blk.j + blk.n ≤ Y.j := hrel.2
            _ ≤ Y.j + Y.n := Nat.le_add_right _ _
            _ ≤ L.j + L.n := hY.2
      · exact ih L hm' hl blk hblk

theorem syncLoop_bounds (am bm : List MBlock) (lz la lb : Nat)
    (hma : blocksMono am) (hmb : blocksMono bm)
    (hla : am.getLast? = some ⟨lz, la, 0⟩)
    (hlb : bm.getLast? = some ⟨lz, lb, 0⟩) :
    ∀ s ∈ syncLoop am bm,
      SyncShape s ∧ s.base2 ≤ lz ∧ s.a2 ≤ la ∧ s.b2 ≤ lb := by
  intro s hs
  rcases syncLoop_prov am bm s hs with ⟨A, hA, B, hB, hprov⟩
  have hA' := blocksMono_last_bound am _ hma hla A hA
  have hB' := blocksMono_last_bound bm _ hmb hlb B hB
  unfold SyncProv at hprov
  unfold SyncShape
  dsimp only at hA' hB'
  omega

theorem syncsWF_of_chain (lz la lb : Nat) : ∀ (l : List SyncRegion)
    (iz ia ib : Nat),
    List.Chain' SyncLE (l ++ [⟨lz, lz, la, la, lb, lb⟩]) →
    (∀ s ∈ l, SyncShape s ∧ s.base2 ≤ lz ∧ s.a2 ≤ la ∧ s.b2 ≤ lb) →
    (∀ s ∈ (l ++ [(⟨lz, lz, la, la, lb, lb⟩ : SyncRegion)]).head?,
      iz ≤ s.base1 ∧ ia ≤ s.a1 ∧ ib ≤ s.b1) →
    SyncsWF lz la lb iz ia ib (l ++ [⟨lz, lz, la, la, lb, lb⟩]) := by
  intro l
  induction l with
  | nil =>
    intro iz ia ib _ _ hhead
    have h := hhead ⟨lz, lz, la, la, lb, lb⟩ rfl
    simp only [List.nil_append]
    show iz ≤ lz ∧ ia ≤ la ∧ ib ≤ lb ∧ SyncShape _ ∧ _
    refine ⟨h.1, h.2.1, h.2.2, ?_, rfl, rfl, rfl⟩
    unfold SyncShape
    dsimp only
    omega
  | cons s l' ih =>
    intro iz ia ib hchain hbounds hhead
    have h := hhead s rfl
    have hchain' := (List.chain'_cons'.mp hchain).2
    have hle := (List.chain'_cons'.mp hchain).1
    have hb := hbounds s (List.mem_cons_self s l')
    show iz ≤ s.base1 ∧ ia ≤ s.a1 ∧ ib ≤ s.b1 ∧ SyncShape s ∧ SyncsWF _ _ _ _ _ _ _
    refine ⟨h.1, h.2.1, h.2.2, hb.1, ?_⟩
    apply ih s.base2 s.a2 s.b2 hchain'
    · intro t ht
      exact hbounds t (List.mem_cons_of_mem s ht)
    · intro t ht
      have := hle t ht
      unfold SyncLE at this
      exact ⟨this.1, this.2.1, this.2.2⟩

theorem findSyncRegions_wf {α : Type} (base a b : List α) (m : Matcher α)
    (hA : conformingAt (m base a) base.length a.length)
    (hB : conformingAt (m base b) base.length b.length) :
    SyncsWF base.length a.length b.length 0 0 0
      (findSyncRegions base a b m) := by
  rcases hA with ⟨hlastA, hmonoA⟩
  rcases hB with ⟨hlastB, hmonoB⟩
  have hbounds := syncLoop_bounds (m base a) (m base b) base.length a.length
    b.length hmonoA hmonoB hlastA hlastB
  have hchain : List.Chain' SyncLE (syncLoop (m base a) (m base b) ++
      [⟨base.length, base.length, a.length, a.length, b.length,
        b.length⟩]) := by
    rw [List.chain'_append]
    refine ⟨syncLoop_chain (m base a) (m base b) hmonoA hmonoB,
      List.chain'_singleton _, ?_⟩
    intro x hx y hy
    simp only [List.head?_cons, Option.mem_def, Option.some_inj] at hy
    subst hy
    have hxm := List.mem_of_mem_getLast? hx
    have hbx := hbounds x hxm
    unfold SyncLE
    dsimp only
    exact ⟨hbx.2.1, hbx.2.2.1, hbx.2.2.2⟩
  exact syncsWF_of_chain base.length a.length b.length _ 0 0 0 hchain hbounds
    (fun s _ => ⟨Nat.zero_le _, Nat.zero_le _, Nat.zero_le _⟩)

theorem syncsWF_le (lz la lb : Nat) : ∀ (l : List SyncRegion) (iz ia ib : Nat),
    SyncsWF lz la lb iz ia ib l → iz ≤ lz ∧ ia ≤ la ∧ ib ≤ lb := by
  intro l
  induction l with
  | nil =>
    intro iz ia ib h
    rcases h with ⟨h1, h2, h3⟩
    omega
  | cons s l' ih =>
    intro iz ia ib h
    rcases h with ⟨h1, h2, h3, hshape, hrest⟩
    have := ih s.base2 s.a2 s.b2 hrest
    rcases hshape with ⟨hs1, hs2, hs3⟩
    omega

theorem range'_glue (s t u : Nat) (h1 : s ≤ t) (h2 : t ≤ u) :
    List.range' s (t - s) ++ List.range' t (u - t) = List.range' s (u - s) := by
  have h := List.range'_append s (t - s) (u - t) 1
  simp only [one_mul] at h
  rw [show s + (t - s) = t from by omega] at h
  rw [h]
  congr 1
  omega

theorem gapOutputAnn_cases {α : Type} [DecidableEq α] (base a b : List α)
    (iz ia ib : Nat) (sync : SyncRegion) :
    (gapOutputAnn base a b iz ia ib sync = [] ∧ sync.a1 = ia ∧ sync.b1 = ib) ∨
    (∃ reg, gapOutputAnn base a b iz ia ib sync =
      [⟨reg, (iz, sync.base1), (ia, sync.a1), (ib, sync.b1)⟩] ∧
      regMatchesSpans ⟨reg, (iz, sync.base1), (ia, sync.a1), (ib, sync.b1)⟩) := by
  unfold gapOutputAnn
  split
  · rename_i hcond
    right
    split
    · exact ⟨_, rfl, rfl⟩
    · rename_i hsame
      dsimp only
      split
      · exact ⟨_, rfl, rfl⟩
      · split
        · exact ⟨_, rfl, rfl⟩
        · split
          · refine ⟨_, rfl, ?_⟩
            unfold regMatchesSpans
            exact ⟨rfl, rfl, rfl⟩
          · rename_i hA' hB' hAB
            exfalso
            cases hEA : compareRange a ia sync.a1 base iz sync.base1 with
            | false =>
              cases hEB : compareRange b ib sync.b1 base iz sync.base1 with
              | false => exact hAB (by simp [hEA, hEB])
              | true => exact hB' (by simp [hEA, hEB])
            | true =>
              cases hEB : compareRange b ib sync.b1 base iz sync.base1 with
              | false => exact hA' (by simp [hEA, hEB])
              | true => exact hsame (compareRange_trans a b base ia sync.a1
                  ib sync.b1 iz sync.base1 hEA hEB)
  · rename_i hcond
    left
    refine ⟨rfl, ?_, ?_⟩ <;> omega

theorem mergeLoopAnn_cover {α : Type} [DecidableEq α] (base a b : List α)
    (m : Matcher α) : ∀ (syncs : List SyncRegion) (iz ia ib : Nat),
    SyncsWF base.length a.length b.length iz ia ib syncs →
    (((mergeLoopAnn base a b m iz ia ib syncs).map fun r =>
        spanIdx r.aspan).flatten = List.range' ia (a.length - ia)) ∧
    (((mergeLoopAnn base a b m iz ia ib syncs).map fun r =>
        spanIdx r.bspan).flatten = List.range' ib (b.length - ib)) ∧
    List.Pairwise (· < ·) (((mergeLoopAnn base a b m iz ia ib syncs).map
      fun r => spanIdx r.zspan).flatten) ∧
    (∀ x ∈ ((mergeLoopAnn base a b m iz ia ib syncs).map fun r =>
        spanIdx r.zspan).flatten, iz ≤ x ∧ x < base.length) ∧
    (∀ r ∈ mergeLoopAnn base a b m iz ia ib syncs, regMatchesSpans r) := by
  intro syncs
  induction syncs with
  | nil =>
    intro iz ia ib hwf
    rcases hwf with ⟨h1, h2, h3⟩
    subst h1
    subst h2
    subst h3
    simp [mergeLoopAnn, spanIdx]
  | cons sync rest ih =>
    intro iz ia ib hwf
    rcases hwf with ⟨hiz, hia, hib, hshape, hrest⟩
    rcases hshape with ⟨hzz, ha2, hb2⟩
    have hle := syncsWF_le base.length a.length b.length rest _ _ _ hrest
    have ihc := ih sync.base2 sync.a2 sync.b2 hrest
    -- uniform facts about the gap block
    have hgapA : ((gapOutputAnn base a b iz ia ib sync).map fun r =>
        spanIdx r.aspan).flatten = List.range' ia (sync.a1 - ia) := by
      rcases gapOutputAnn_cases base a b iz ia ib sync with
        ⟨hnil, hae, hbe⟩ | ⟨reg, hcons, hmatch⟩
      · rw [hnil, hae]
        simp
      · rw [hcons]
        simp [spanIdx]
    have hgapB : ((gapOutputAnn base a b iz ia ib sync).map fun r =>
        spanIdx r.bspan).flatten = List.range' ib (sync.b1 - ib) := by
      rcases gapOutputAnn_cases base a b iz ia ib sync with
        ⟨hnil, hae, hbe⟩ | ⟨reg, hcons, hmatch⟩
      · rw [hnil, hbe]
        simp
      · rw [hcons]
        simp [spanIdx]
    have hgapZP : List.Pairwise (· < ·) (((gapOutputAnn base a b iz ia ib
        sync).map fun r => spanIdx r.zspan).flatten) := by
      rcases gapOutputAnn_cases base a b iz ia ib sync with
        ⟨hnil, hae, hbe⟩ | ⟨reg, hcons, hmatch⟩
      · rw [hnil]
        simp
      · rw [hcons]
        simp only [List.map_cons, List.map_nil, List.flatten_cons,
          List.flatten_nil, List.append_nil, spanIdx]
        exact List.pairwise_lt_range' _ _
    have hgapZmem : ∀ x ∈ ((gapOutputAnn base a b iz ia ib sync).map
        fun r => spanIdx r.zspan).flatten, iz ≤ x ∧ x < sync.base1 := by
      rcases gapOutputAnn_cases base a b iz ia ib sync with
        ⟨hnil, hae, hbe⟩ | ⟨reg, hcons, hmatch⟩
      · rw [hnil]
        simp
      · rw [hcons]
        simp only [List.map_cons, List.map_nil, List.flatten_cons,
          List.flatten_nil, List.append_nil, spanIdx]
        intro x hx
        have := List.mem_range'_1.mp hx
        omega
    have hgapR : ∀ r ∈ gapOutputAnn base a b iz ia ib sync,
        regMatchesSpans r := by
      rcases gapOutputAnn_cases base a b iz ia ib sync with
        ⟨hnil, hae, hbe⟩ | ⟨reg, hcons, hmatch⟩
      · rw [hnil]
        simp
      · rw [hcons]
        intro r hr
        simp only [List.mem_singleton] at hr
        subst hr
        exact hmatch
    by_cases hu : sync.base1 < sync.base2
    · simp only [mergeLoopAnn, if_pos hu, List.map_append, List.map_cons,
        List.flatten_append, List.flatten_cons]
      refine ⟨?_, ?_, ?_, ?_, ?_⟩
      · rw [hgapA, ihc.1]
        rw [show spanIdx (sync.a1, sync.a2) =
          List.range' sync.a1 (sync.a2 - sync.a1) from rfl]
        rw [← List.append_assoc, range'_glue ia sync.a1 sync.a2 hia (by omega),
          range'_glue ia sync.a2 a.length (by omega) hle.2.1]
      · rw [hgapB, ihc.2.1]
        rw [show spanIdx (sync.b1, sync.b2) =
          List.range' sync.b1 (sync.b2 - sync.b1) from rfl]
        rw [← List.append_assoc, range'_glue ib sync.b1 sync.b2 hib (by omega),
          range'_glue ib sync.b2 b.length (by omega) hle.2.2]
      · rw [List.pairwise_append]
        refine ⟨hgapZP, ?_, ?_⟩
        · rw [List.pairwise_append]
          refine ⟨?_, ihc.2.2.1, ?_⟩
          · exact List.pairwise_lt_range' _ _
          · intro x hx y hy
            have hx' := List.mem_range'_1.mp (by simpa [spanIdx] using hx)
            have hy' := (ihc.2.2.2.1 y hy).1
            omega
        · intro x hx y hy
          have hx' := hgapZmem x hx
          rcases List.mem_append.mp hy with hy | hy
          · have hy' := List.mem_range'_1.mp (by simpa [spanIdx] using hy)
            omega
          · have hy' := (ihc.2.2.2.1 y hy).1
            omega
      · intro x hx
        rcases List.mem_append.mp hx with hx | hx
        · have := hgapZmem x hx
          omega
        · rcases List.mem_append.mp hx with hx | hx
          · have := List.mem_range'_1.mp (by simpa [spanIdx] using hx)
            omega
          · have h1 := (ihc.2.2.2.1 x hx).1
            have h2 := (ihc.2.2.2.1 x hx).2
            omega
      · intro r hr
        rcases List.mem_append.mp hr with hr | hr
        · exact hgapR r hr
        · rcases List.mem_cons.mp hr with hr | hr
          · subst hr
            unfold regMatchesSpans
            rfl
          · exact ihc.2.2.2.2 r hr
    · have hz12 : sync.base1 = sync.base2 := by omega
      have ha12 : sync.a1 = sync.a2 := by omega
      have hb12 : sync.b1 = sync.b2 := by omega
      have hreceq : mergeLoopAnn base a b m sync.base1 sync.a1 sync.b1 rest =
          mergeLoopAnn base a b m sync.base2 sync.a2 sync.b2 rest := by
        rw [hz12, ha12, hb12]
      simp only [mergeLoopAnn, if_neg hu, List.map_append,
        List.flatten_append, hreceq]
      refine ⟨?_, ?_, ?_, ?_, ?_⟩
      · rw [hgapA, ihc.1, ha12, range'_glue ia sync.a2 a.length (by omega)
          hle.2.1]
      · rw [hgapB, ihc.2.1, hb12, range'_glue ib sync.b2 b.length (by omega)
          hle.2.2]
      · rw [List.pairwise_append]
        refine ⟨hgapZP, ihc.2.2.1, ?_⟩
        intro x hx y hy
        have hx' := hgapZmem x hx
        have hy' := (ihc.2.2.2.1 y hy).1
        omega
      · intro x hx
        rcases List.mem_append.mp hx with hx | hx
        · have := hgapZmem x hx
          omega
        · have h1 := (ihc.2.2.2.1 x hx).1
          have h2 := (ihc.2.2.2.1 x hx).2
          omega
      · intro r hr
        rcases List.mem_append.mp hr with hr | hr
        · exact hgapR r hr
        · exact ihc.2.2.2.2 r hr

theorem mergeLoop_erase {α : Type} [DecidableEq α] (base a b : List α)
    (m : Matcher α) : ∀ (syncs : List SyncRegion) (iz ia ib : Nat),
    mergeLoop base a b false m iz ia ib syncs =
      ((mergeLoopAnn base a b m iz ia ib syncs).map AnnRegion.reg, none) := by
  intro syncs
  induction syncs with
  | nil => intro iz ia ib; rfl
  | cons sync rest ih =>
    intro iz ia ib
    have hgap : gapOutput base a b false m iz ia ib sync =
        ((gapOutputAnn base a b iz ia ib sync).map AnnRegion.reg, none) := by
      unfold gapOutput gapOutputAnn
      split
      · split
        · rfl
        · rename_i hsame
          dsimp only
          split
          · rfl
          · split
            · rfl
            · split
              · simp
              · rename_i hA' hB' hAB
                exfalso
                cases hEA : compareRange a ia sync.a1 base iz sync.base1 with
                | false =>
                  cases hEB : compareRange b ib sync.b1 base iz sync.base1 with
                  | false => exact hAB (by simp [hEA, hEB])
                  | true => exact hB' (by simp [hEA, hEB])
                | true =>
                  cases hEB : compareRange b ib sync.b1 base iz sync.base1 with
                  | false => exact hA' (by simp [hEA, hEB])
                  | true => exact hsame (compareRange_trans a b base ia sync.a1
                      ib sync.b1 iz sync.base1 hEA hEB)
      · rfl
    have hia' : (if (sync.a1 : Int) - (ia : Int) ≠ 0 ∨
        (sync.b1 : Int) - (ib : Int) ≠ 0 then sync.a1 else ia) = sync.a1 := by
      split
      · rfl
      · omega
    have hib' : (if (sync.a1 : Int) - (ia : Int) ≠ 0 ∨
        (sync.b1 : Int) - (ib : Int) ≠ 0 then sync.b1 else ib) = sync.b1 := by
      split
      · rfl
      · omega
    rw [mergeLoop]
    simp only [hgap, hia', hib']
    simp only [mergeLoopAnn]
    split
    · rw [ih]
      simp
    · rw [ih]
      simp

/-- C1 counterexample: for `base = [0]`, `a = b = []` with the honest
(sentinel-only, conforming) matcher — the same base content deleted on
both sides — `merge_regions` yields no region at all, so the concatenated
base coordinate spans are empty and do not reconstruct `0..len(base)`:
base index 0 is covered by no region. -/
theorem merge_partition_cex :
    conformingAt (sentMatcher ([0] : List Nat) ([] : List Nat)) 1 0 ∧
    mergeRegions ([0] : List Nat) [] [] false sentMatcher = ([], none) ∧
    ((annTrace ([0] : List Nat) [] [] sentMatcher).map fun r =>
      spanIdx r.zspan).flatten = [] ∧
    List.range ([0] : List Nat).length ≠ [] := by
  refine ⟨⟨by decide, by decide⟩, by decide, by decide, by decide⟩

/-- C1 (amended): with cherry-pick mode off and a conforming matcher, the
region stream (annotated with the spans it consumes) is error-free; the
consumed `a` spans and `b` spans reconstruct `0..len(a)` and `0..len(b)`
exactly once each, in order with no gap or overlap; the consumed base
indices are strictly increasing (no overlap, in order) and within bounds,
though a base span deleted from both sides is covered by no region; and
each region's explicit coordinates equal the consumed spans. -/
theorem merge_partition {α : Type} [DecidableEq α] (base a b : List α)
    (m : Matcher α)
    (hA : conformingAt (m base a) base.length a.length)
    (hB : conformingAt (m base b) base.length b.length) :
    partitionConclusion base a b m := by
  have hwf := findSyncRegions_wf base a b m hA hB
  have hcov := mergeLoopAnn_cover base a b m (findSyncRegions base a b m)
    0 0 0 hwf
  unfold partitionConclusion
  refine ⟨?_, ?_, ?_, ?_, ?_, ?_⟩
  · unfold mergeRegions annTrace
    exact mergeLoop_erase base a b m _ 0 0 0
  · unfold annTrace
    rw [hcov.1]
    simp [List.range_eq_range']
  · unfold annTrace
    rw [hcov.2.1]
    simp [List.range_eq_range']
  · unfold annTrace
    exact hcov.2.2.1
  · unfold annTrace
    intro x hx
    exact (hcov.2.2.2.1 x hx).2
  · unfold annTrace
    exact hcov.2.2.2.2

/-- Witness for C1's amended claim at a concrete conforming input, the
insertion-clash triple. -/
theorem merge_partition_wit :
    conformingAt (clashMatcher [0, 1] [0, 2, 1]) 2 3 ∧
    conformingAt (clashMatcher [0, 1] [0, 3, 1]) 2 3 ∧
    partitionConclusion [0, 1] [0, 2, 1] [0, 3, 1] clashMatcher :=
  ⟨⟨by decide, by decide⟩, ⟨by decide, by decide⟩,
   merge_partition [0, 1] [0, 2, 1] [0, 3, 1] clashMatcher
     ⟨by decide, by decide⟩ ⟨by decide, by decide⟩⟩
